import Mathlib

/-!
Shallow embedding of the Firestore-backed LangGraph persistence layer:
the namespaced KV store (`FirestoreStore` in
`libs/checkpoint-firestore/langgraph/store/firestore/__init__.py`),
the checkpoint saver (`FirestoreSaver` in
`libs/checkpoint-firestore/langgraph/checkpoint/firestore/__init__.py`)
and the simplified state adapter (`FirestoreStateAdapter` in
`libs/langgraph/langgraph/store/firestore.py`).

The external Firestore backend is modelled as an association list of
documents addressed by (collection path, document id).  A collection path
is the string produced by joining the namespace tuple with "/" exactly as
`_get_collection_path` does.  Queries without an explicit ordering return
documents in ascending document-id order (byte-wise lexicographic), which
is Firestore's documented default ordering for a collection query.
Server timestamps are modelled by an explicit `now : Nat` argument.
-/

set_option autoImplicit false

/-- Arbitrary structurally-serializable payloads (Python `Any` values that
cross the store boundary): strings, numbers, byte blobs, lists and dicts. -/
inductive Val where
  | vnull
  | vstr (s : String)
  | vnat (n : Nat)
  | vbytes (bs : List Nat)
  | vlist (xs : List Val)
  | vdict (fields : List (String × Val))

/-- First-match lookup in a Python-dict-like association list (`d.get(k)`). -/
def dlookup {α : Type} (k : String) : List (String × α) → Option α
  | [] => none
  | (k₀, v₀) :: rest => if k₀ = k then some v₀ else dlookup k rest

/-- Python `d[k] = v`: replace the first binding of `k`, or append it. -/
def dinsert {α : Type} (k : String) (v : α) : List (String × α) → List (String × α)
  | [] => [(k, v)]
  | (k₀, v₀) :: rest => if k₀ = k then (k, v) :: rest else (k₀, v₀) :: dinsert k v rest

/-- A Firestore document as managed by `FirestoreStore`: the stored value
plus the two server-maintained timestamps (`created_at`, `updated_at`). -/
structure StoreDoc (V : Type) where
  value : V
  created_at : Nat
  updated_at : Nat
deriving DecidableEq

/-- The Firestore backend state: documents addressed by
(collection path, document id).  At most one entry per address arises from
the operations below. -/
abbrev FS (V : Type) : Type := List ((String × String) × StoreDoc V)

/-- `"/".join(namespace)`, as computed by `FirestoreStore._get_collection_path`. -/
def joinPath : List String → String
  | [] => ""
  | [x] => x
  | x :: xs => x ++ "/" ++ joinPath xs

/-- Raw document read at an address (`doc_ref.get()` / `doc.exists`). -/
def FS.lookup {V : Type} (s : FS V) (p k : String) : Option (StoreDoc V) :=
  match s with
  | [] => none
  | e :: rest => if e.1 = (p, k) then some e.2 else FS.lookup rest p k

/-- Replace the document at an address, keeping every other entry. -/
def FS.replaceEntry {V : Type} (s : FS V) (p k : String) (d : StoreDoc V) : FS V :=
  s.map (fun e => if e.1 = (p, k) then ((p, k), d) else e)

/-- Byte-wise lexicographic comparison of document ids, the ordering
Firestore uses for a collection query with no explicit `order_by`. -/
def strLtb : List Char → List Char → Bool
  | [], [] => false
  | [], _ :: _ => true
  | _ :: _, [] => false
  | x :: xs, y :: ys =>
    if x.val < y.val then true else if y.val < x.val then false else strLtb xs ys

/-- Insert an entry into a list of documents sorted by ascending id. -/
def FS.insSorted {V : Type} (e : (String × String) × StoreDoc V) :
    List ((String × String) × StoreDoc V) → List ((String × String) × StoreDoc V)
  | [] => [e]
  | x :: xs =>
    if strLtb e.1.2.data x.1.2.data then e :: x :: xs else x :: FS.insSorted e xs

/-- Sort documents by ascending document id (Firestore default ordering). -/
def FS.sortEntries {V : Type} :
    List ((String × String) × StoreDoc V) → List ((String × String) × StoreDoc V)
  | [] => []
  | x :: xs => FS.insSorted x (FS.sortEntries xs)

/-- The item returned by store reads (`langgraph.store.base.Item`). -/
structure Item (V : Type) where
  ns : List String
  key : String
  value : V
  created_at : Nat
  updated_at : Nat
deriving DecidableEq

namespace FirestoreStore

/-- `FirestoreStore.get`: read the document at
(`_get_collection_path(namespace)`, key); absence yields `none`. -/
def get {V : Type} (s : FS V) (ns : List String) (key : String) : Option (Item V) :=
  match FS.lookup s (joinPath ns) key with
  | none => none
  | some d => some ⟨ns, key, d.value, d.created_at, d.updated_at⟩

/-- `FirestoreStore.put`: if the document exists, `update` value and
`updated_at` (keeping `created_at`); otherwise `set` all three fields. -/
def put {V : Type} (s : FS V) (ns : List String) (key : String) (v : V) (now : Nat) : FS V :=
  let p := joinPath ns
  match FS.lookup s p key with
  | some d => FS.replaceEntry s p key ⟨v, d.created_at, now⟩
  | none => s ++ [((p, key), ⟨v, now, now⟩)]

/-- `FirestoreStore.delete`: `doc_ref.delete()`, which is a no-op on an
absent document. -/
def delete {V : Type} (s : FS V) (ns : List String) (key : String) : FS V :=
  s.filter (fun e => !(decide (e.1 = (joinPath ns, key))))

/-- `FirestoreStore.search`: stream the collection at
`"/".join(namespace_prefix)` (ascending document-id order, the backend
default), apply the equality filter (abstracted as a predicate on the
stored value, since the source filters by `value.{field} == constant`),
then offset and limit.  Python truthiness: an offset or limit of `0` is
falsy and therefore not applied, exactly as in the source. -/
def search {V : Type} (s : FS V) (nsp : List String) (flt : Option (V → Bool))
    (limit : Option Nat) (offset : Option Nat) : List (Item V) :=
  let docs : FS V := FS.sortEntries (s.filter (fun e => decide (e.1.1 = joinPath nsp)))
  let docs : FS V := match flt with
    | some f => docs.filter (fun e => f e.2.value)
    | none => docs
  let docs : FS V := match offset with
    | some o => if o = 0 then docs else docs.drop o
    | none => docs
  let docs : FS V := match limit with
    | some l => if l = 0 then docs else docs.take l
    | none => docs
  docs.map (fun e => ⟨nsp, e.1.2, e.2.value, e.2.created_at, e.2.updated_at⟩)

end FirestoreStore

/-- A LangGraph checkpoint (`langgraph.checkpoint.base.Checkpoint`): the
structural fields the saver touches, plus `extra` for the engine-defined
fields (`v`, `ts`, `versions_seen`, ...) that are carried through verbatim.
Version tokens are the strings the source produces via `str(version)`. -/
structure Checkpoint where
  id : String
  channel_versions : List (String × String)
  channel_values : List (String × Val)
  pending_sends : List Val
  extra : List (String × Val)

/-- Checkpoint metadata: the `parents` mapping (checkpoint_ns → parent
checkpoint id) that `put` consults, plus the remaining caller fields. -/
structure CheckpointMetadata where
  parents : List (String × String)
  extra : List (String × Val)

/-- The value stored in a backend document by the saver: a channel blob
(`{"type": ..., "blob": ...}`), a pending-sends record
(`{"sends": [{"type", "blob"}, ...]}`) or a checkpoint header
(`{"checkpoint": ..., "metadata": ..., "parent_checkpoint_id": ...}`). -/
inductive SVal where
  | blobDoc (ty : String) (blob : Val)
  | sendsDoc (sends : List (String × Val))
  | headerDoc (checkpoint : Checkpoint) (metadata : CheckpointMetadata)
      (parent_checkpoint_id : Option String)

/-- `value.get("checkpoint", {})`: the missing-key default is the empty
dict, embedded as the checkpoint with empty fields. -/
def SVal.getCheckpoint : SVal → Checkpoint
  | .headerDoc c _ _ => c
  | _ => ⟨"", [], [], [], []⟩

/-- `value.get("metadata", {})`. -/
def SVal.getMetadata : SVal → CheckpointMetadata
  | .headerDoc _ m _ => m
  | _ => ⟨[], []⟩

/-- `value.get("type")`: `None` when the document has no such field. -/
def SVal.typeTag : SVal → Option String
  | .blobDoc t _ => some t
  | _ => none

/-- `value.get("blob", None)`. -/
def SVal.blobPayload : SVal → Val
  | .blobDoc _ b => b
  | _ => .vnull

/-- `value.get("sends", [])`. -/
def SVal.sendsList : SVal → List (String × Val)
  | .sendsDoc l => l
  | _ => []

/-- The pluggable serializer (`SerializerProtocol`): `dumps_typed` yields a
(type tag, payload) pair and `loads_typed` inverts it. -/
structure Serde where
  dumps_typed : Val → String × Val
  loads_typed : String × Val → Val

/-- The `configurable` section of a `RunnableConfig`, holding the two
fields the saver reads. -/
structure RunnableConfig where
  thread_id : Option String
  checkpoint_namespace : Option String

namespace FirestoreSaver

/-- `FirestoreSaver._get_thread_id`: `configurable.get("thread_id", "default")`. -/
def getThreadId (c : RunnableConfig) : String := c.thread_id.getD "default"

/-- `FirestoreSaver._get_checkpoint_namespace`:
`configurable.get("checkpoint_namespace", "")`. -/
def getCheckpointNs (c : RunnableConfig) : String := c.checkpoint_namespace.getD ""

/-- `FirestoreSaver.list`: search the `("checkpoints", thread_id,
checkpoint_ns)` collection and return `(checkpoint_id, metadata)` pairs. -/
def list (s : FS SVal) (config : Option RunnableConfig) (limit : Option Nat) :
    List (String × CheckpointMetadata) :=
  match config with
  | none => []
  | some cfg =>
    (FirestoreStore.search s ["checkpoints", getThreadId cfg, getCheckpointNs cfg]
        none limit none).map
      (fun item => (item.key, item.value.getMetadata))

/-- The loop body of `FirestoreSaver.get` over `channel_versions`: fetch
each referenced blob; a missing blob is silently skipped, and a blob whose
type tag is `"empty"` contributes no entry. -/
def getChannelValues (serde : Serde) (s : FS SVal) (t n : String) :
    List (String × String) → List (String × Val)
  | [] => []
  | (channel, version) :: rest =>
    match FirestoreStore.get s ["checkpoint_blobs", t, n, channel] version with
    | some item =>
      if item.value.typeTag ≠ some "empty" then
        (channel, serde.loads_typed (item.value.typeTag.getD "", item.value.blobPayload)) ::
          getChannelValues serde s t n rest
      else
        getChannelValues serde s t n rest
    | none => getChannelValues serde s t n rest

/-- `FirestoreSaver.get`: resolve the checkpoint id (via `list(..., limit=1)`
when omitted), read the header, re-fetch the channel blobs and the
pending-sends record, and recombine them. -/
def get (serde : Serde) (s : FS SVal) (config : RunnableConfig)
    (checkpoint_id : Option String) : Option Checkpoint :=
  let t := getThreadId config
  let n := getCheckpointNs config
  let cid? : Option String :=
    match checkpoint_id with
    | some cid => some cid
    | none =>
      match list s (some config) (some 1) with
      | [] => none
      | c :: _ => some c.1
  match cid? with
  | none => none
  | some cid =>
    match FirestoreStore.get s ["checkpoints", t, n] cid with
    | none => none
    | some item =>
      let cp := item.value.getCheckpoint
      let channelValues := getChannelValues serde s t n cp.channel_versions
      let pendingSends : List Val :=
        match FirestoreStore.get s ["checkpoint_writes", t, n, cid] "pending_sends" with
        | some sendsItem => sendsItem.value.sendsList.map serde.loads_typed
        | none => []
      some { cp with channel_values := channelValues, pending_sends := pendingSends }

/-- The blob-writing loop of `FirestoreSaver.put`: for each channel value
whose channel appears in `new_versions`, store the serialized blob at
`("checkpoint_blobs", thread_id, checkpoint_ns, channel)` under the new
version token. -/
def putBlobs (serde : Serde) (t n : String) (nv : List (String × String)) (now : Nat)
    (s : FS SVal) : List (String × Val) → FS SVal
  | [] => s
  | (channel, value) :: rest =>
    match dlookup channel nv with
    | some version =>
      putBlobs serde t n nv now
        (FirestoreStore.put s ["checkpoint_blobs", t, n, channel] version
          (.blobDoc (serde.dumps_typed value).1 (serde.dumps_typed value).2) now)
        rest
    | none => putBlobs serde t n nv now s rest

/-- `FirestoreSaver.put`: write the delta channel blobs, then the
pending-sends record (only when `pending_sends` is non-empty), then the
checkpoint header with `channel_values` and `pending_sends` stripped.
The source returns `config` unchanged; the model returns the new state. -/
def put (serde : Serde) (s : FS SVal) (config : RunnableConfig) (cp : Checkpoint)
    (metadata : CheckpointMetadata) (nv : List (String × String)) (now : Nat) : FS SVal :=
  let t := getThreadId config
  let n := getCheckpointNs config
  let s1 := putBlobs serde t n nv now s cp.channel_values
  let s2 :=
    if cp.pending_sends.isEmpty then s1
    else
      FirestoreStore.put s1 ["checkpoint_writes", t, n, cp.id] "pending_sends"
        (.sendsDoc (cp.pending_sends.map serde.dumps_typed)) now
  FirestoreStore.put s2 ["checkpoints", t, n] cp.id
    (.headerDoc { cp with channel_values := [], pending_sends := [] } metadata
      (dlookup n metadata.parents)) now

end FirestoreSaver

namespace FirestoreSaver

/-- The blob-writing loop of `put` with fallible backend writes: `ok i`
tells whether the i-th backend write of this `put` call succeeds.  A failed
write raises, which aborts the loop; the error carries the state the
backend reached (earlier writes persist).  The counter of completed writes
is threaded through. -/
def putBlobsE (serde : Serde) (t n : String) (nv : List (String × String)) (now : Nat)
    (ok : Nat → Bool) (s : FS SVal) (i : Nat) :
    List (String × Val) → Except (FS SVal) (FS SVal × Nat)
  | [] => .ok (s, i)
  | (channel, value) :: rest =>
    match dlookup channel nv with
    | some version =>
      if ok i then
        putBlobsE serde t n nv now ok
          (FirestoreStore.put s ["checkpoint_blobs", t, n, channel] version
            (.blobDoc (serde.dumps_typed value).1 (serde.dumps_typed value).2) now)
          (i + 1) rest
      else .error s
    | none => putBlobsE serde t n nv now ok s i rest

/-- `FirestoreSaver.put` with fallible backend writes: blobs first, then the
pending-sends record, then the header.  An exception from any write
propagates immediately, so no later write happens. -/
def putE (serde : Serde) (s : FS SVal) (config : RunnableConfig) (cp : Checkpoint)
    (metadata : CheckpointMetadata) (nv : List (String × String)) (now : Nat)
    (ok : Nat → Bool) : Except (FS SVal) (FS SVal) :=
  let t := getThreadId config
  let n := getCheckpointNs config
  match putBlobsE serde t n nv now ok s 0 cp.channel_values with
  | .error sf => .error sf
  | .ok (s1, i1) =>
    let afterSends : Except (FS SVal) (FS SVal × Nat) :=
      if cp.pending_sends.isEmpty then .ok (s1, i1)
      else if ok i1 then
        .ok (FirestoreStore.put s1 ["checkpoint_writes", t, n, cp.id] "pending_sends"
          (.sendsDoc (cp.pending_sends.map serde.dumps_typed)) now, i1 + 1)
      else .error s1
    match afterSends with
    | .error sf => .error sf
    | .ok (s2, i2) =>
      if ok i2 then
        .ok (FirestoreStore.put s2 ["checkpoints", t, n] cp.id
          (.headerDoc { cp with channel_values := [], pending_sends := [] } metadata
            (dlookup n metadata.parents)) now)
      else .error s2

end FirestoreSaver

/-- The state of one `FirestoreStateAdapter` collection: document id →
document fields.  Adapter documents are raw dicts (no `value` wrapper and
no store-managed timestamps). -/
def AdapterState : Type := String → Option (List (String × Val))

/-- `doc_ref.update(value)` merging: each field of `value` overwrites the
corresponding field of the existing document. -/
def mergeFields (doc : List (String × Val)) : List (String × Val) → List (String × Val)
  | [] => doc
  | (k, v) :: rest => mergeFields (dinsert k v doc) rest

namespace FirestoreStateAdapter

/-- `FirestoreStateAdapter.put`: stamp `"_updated_at" = datetime.now()`
into the caller's dict (an in-place mutation in the source), then
`doc_ref.set` it.  The result pairs the new collection state with the
dict object as the caller sees it after the call. -/
def put (st : AdapterState) (key : String) (value : List (String × Val)) (now : Nat) :
    AdapterState × List (String × Val) :=
  let stamped := dinsert "_updated_at" (.vnat now) value
  (fun k => if k = key then some stamped else st k, stamped)

/-- `FirestoreStateAdapter.update`: stamp `"_updated_at"` into the caller's
dict, then `doc_ref.update` it; Firestore's `update` raises (`none` here)
when the document does not exist, but the caller's dict has already been
mutated at that point. -/
def update (st : AdapterState) (key : String) (value : List (String × Val)) (now : Nat) :
    Option AdapterState × List (String × Val) :=
  let stamped := dinsert "_updated_at" (.vnat now) value
  match st key with
  | none => (none, stamped)
  | some doc => (some (fun k => if k = key then some (mergeFields doc stamped) else st k), stamped)

/-- `FirestoreStateAdapter.get`: `doc.to_dict()` when it exists, else `None`. -/
def get (st : AdapterState) (key : String) : Option (List (String × Val)) := st key

end FirestoreStateAdapter

/-- Valid Firestore path segments: non-empty and free of the `/` separator
(Firestore document/collection ids cannot contain the path separator). -/
def validSegs (l : List String) : Prop := ∀ x ∈ l, x ≠ "" ∧ '/' ∉ x.data

instance validSegs_decidable (l : List String) : Decidable (validSegs l) := by
  unfold validSegs
  infer_instance

/-- A trivial serializer instance used for concrete evaluations: every
value is tagged `"json"` and carried unchanged. -/
def jsonSerde : Serde := ⟨fun v => ("json", v), fun tv => tv.2⟩

/-- A store holding two checkpoints of thread `"t1"` (default namespace):
checkpoint `"1"` written at time 0, then checkpoint `"2"` written at
time 1.  The most recently written checkpoint is `"2"`. -/
def twoCheckpointState : FS SVal :=
  FirestoreSaver.put jsonSerde
    (FirestoreSaver.put jsonSerde [] ⟨some "t1", none⟩ ⟨"1", [], [], [], []⟩ ⟨[], []⟩ [] 0)
    ⟨some "t1", none⟩ ⟨"2", [], [], [], []⟩ ⟨[], []⟩ [] 1

/-! ### String and path facts -/

theorem strData_inj {a b : String} (h : a.data = b.data) : a = b := by
  cases a; cases b; exact congrArg String.mk h

theorem sappend_left_cancel {p a b : String} (h : p ++ a = p ++ b) : a = b := by
  have hd : p.data ++ a.data = p.data ++ b.data := by
    have := congrArg String.data h
    simpa [String.data_append] using this
  exact strData_inj (List.append_cancel_left hd)

theorem append_ne_of_diverge {p q : String} (i : Nat) {c₁ c₂ : Char}
    (hp : p.data[i]? = some c₁) (hq : q.data[i]? = some c₂) (hne : c₁ ≠ c₂)
    (a b : String) : p ++ a ≠ q ++ b := by
  intro h
  have hd : p.data ++ a.data = q.data ++ b.data := by
    have := congrArg String.data h
    simpa [String.data_append] using this
  obtain ⟨hip, -⟩ := List.getElem?_eq_some.mp hp
  obtain ⟨hiq, -⟩ := List.getElem?_eq_some.mp hq
  have h1 : (p.data ++ a.data)[i]? = some c₁ := by
    rw [List.getElem?_append, if_pos hip]; exact hp
  have h2 : (q.data ++ b.data)[i]? = some c₂ := by
    rw [List.getElem?_append, if_pos hiq]; exact hq
  rw [hd, h2] at h1
  exact hne (Option.some.inj h1).symm

theorem append_lit {p q r : String} (h : p ++ q = r) (x : String) :
    p ++ (q ++ x) = r ++ x := by
  rw [← String.append_assoc, h]

theorem joinPath_checkpoints (t n : String) :
    joinPath ["checkpoints", t, n] = "checkpoints/" ++ (t ++ "/" ++ n) := by
  show "checkpoints" ++ ("/" ++ (t ++ "/" ++ n)) = _
  exact append_lit rfl _

theorem joinPath_blobs (t n c : String) :
    joinPath ["checkpoint_blobs", t, n, c] =
      "checkpoint_blobs/" ++ (t ++ "/" ++ (n ++ "/" ++ c)) := by
  show "checkpoint_blobs" ++ ("/" ++ (t ++ "/" ++ (n ++ "/" ++ c))) = _
  exact append_lit rfl _

theorem joinPath_writes (t n cid : String) :
    joinPath ["checkpoint_writes", t, n, cid] =
      "checkpoint_writes/" ++ (t ++ "/" ++ (n ++ "/" ++ cid)) := by
  show "checkpoint_writes" ++ ("/" ++ (t ++ "/" ++ (n ++ "/" ++ cid))) = _
  exact append_lit rfl _

theorem checkpoints_ne_blobs (x y : String) :
    "checkpoints/" ++ x ≠ "checkpoint_blobs/" ++ y :=
  @append_ne_of_diverge "checkpoints/" "checkpoint_blobs/" 10 's' '_'
    (by decide) (by decide) (by decide) x y

theorem checkpoints_ne_writes (x y : String) :
    "checkpoints/" ++ x ≠ "checkpoint_writes/" ++ y :=
  @append_ne_of_diverge "checkpoints/" "checkpoint_writes/" 10 's' '_'
    (by decide) (by decide) (by decide) x y

theorem blobs_ne_writes (x y : String) :
    "checkpoint_blobs/" ++ x ≠ "checkpoint_writes/" ++ y :=
  @append_ne_of_diverge "checkpoint_blobs/" "checkpoint_writes/" 11 'b' 'w'
    (by decide) (by decide) (by decide) x y

theorem blobPath_inj {t n c c' : String}
    (h : joinPath ["checkpoint_blobs", t, n, c] = joinPath ["checkpoint_blobs", t, n, c']) :
    c = c' := by
  rw [joinPath_blobs, joinPath_blobs] at h
  exact sappend_left_cancel (sappend_left_cancel (sappend_left_cancel h))

/-! ### Backend state lemmas -/

section FSLemmas

variable {V : Type}

theorem FS.lookup_append_self {s : FS V} {p k : String} {d : StoreDoc V}
    (h : FS.lookup s p k = none) : FS.lookup (s ++ [((p, k), d)]) p k = some d := by
  induction s with
  | nil => simp [FS.lookup]
  | cons e rest ih =>
    rw [FS.lookup] at h
    by_cases he : e.1 = (p, k)
    · simp [he] at h
    · rw [if_neg he] at h
      simpa [FS.lookup, he] using ih h

theorem FS.lookup_append_other {s : FS V} {p k p' k' : String} {d : StoreDoc V}
    (h : (p', k') ≠ (p, k)) : FS.lookup (s ++ [((p, k), d)]) p' k' = FS.lookup s p' k' := by
  induction s with
  | nil => simp [FS.lookup, Ne.symm h]
  | cons e rest ih =>
    by_cases he : e.1 = (p', k')
    · simp [FS.lookup, he]
    · simpa [FS.lookup, he] using ih

theorem FS.lookup_replace_self {s : FS V} {p k : String} {d₀ d : StoreDoc V}
    (h : FS.lookup s p k = some d₀) : FS.lookup (FS.replaceEntry s p k d) p k = some d := by
  induction s with
  | nil => simp [FS.lookup] at h
  | cons e rest ih =>
    by_cases he : e.1 = (p, k)
    · simp [FS.replaceEntry, FS.lookup, he]
    · rw [FS.lookup, if_neg he] at h
      simpa [FS.replaceEntry, FS.lookup, he] using ih h

theorem FS.lookup_replace_other {s : FS V} {p k p' k' : String} {d : StoreDoc V}
    (h : (p', k') ≠ (p, k)) :
    FS.lookup (FS.replaceEntry s p k d) p' k' = FS.lookup s p' k' := by
  induction s with
  | nil => simp [FS.replaceEntry, FS.lookup]
  | cons e rest ih =>
    by_cases he : e.1 = (p, k)
    · have hne : ¬((p, k) = (p', k')) := Ne.symm h
      simp [FS.replaceEntry, FS.lookup, he, hne] at ih ⊢
      exact ih
    · by_cases he2 : e.1 = (p', k')
      · have hf : ¬(p' = p ∧ k' = k) := fun hc => h (by rw [hc.1, hc.2])
        simp [FS.replaceEntry, FS.lookup, he, he2, hf]
      · simpa [FS.replaceEntry, FS.lookup, he, he2] using ih

theorem FirestoreStore.lookup_put_self_new {s : FS V} {ns : List String} {key : String}
    {v : V} {now : Nat} (h : FS.lookup s (joinPath ns) key = none) :
    FS.lookup (FirestoreStore.put s ns key v now) (joinPath ns) key = some ⟨v, now, now⟩ := by
  rw [FirestoreStore.put]
  simp only [h]
  exact FS.lookup_append_self h

theorem FirestoreStore.lookup_put_self_old {s : FS V} {ns : List String} {key : String}
    {v : V} {now : Nat} {d : StoreDoc V} (h : FS.lookup s (joinPath ns) key = some d) :
    FS.lookup (FirestoreStore.put s ns key v now) (joinPath ns) key
      = some ⟨v, d.created_at, now⟩ := by
  rw [FirestoreStore.put]
  simp only [h]
  exact FS.lookup_replace_self h

theorem FirestoreStore.lookup_put_value {s : FS V} {ns : List String} {key : String}
    {v : V} {now : Nat} :
    (FS.lookup (FirestoreStore.put s ns key v now) (joinPath ns) key).map StoreDoc.value
      = some v := by
  cases h : FS.lookup s (joinPath ns) key with
  | none => rw [FirestoreStore.lookup_put_self_new h]; rfl
  | some d => rw [FirestoreStore.lookup_put_self_old h]; rfl

theorem FirestoreStore.lookup_put_other {s : FS V} {ns : List String} {key p' k' : String}
    {v : V} {now : Nat} (h : (p', k') ≠ (joinPath ns, key)) :
    FS.lookup (FirestoreStore.put s ns key v now) p' k' = FS.lookup s p' k' := by
  rw [FirestoreStore.put]
  cases hl : FS.lookup s (joinPath ns) key with
  | none => exact FS.lookup_append_other h
  | some d => exact FS.lookup_replace_other h

theorem FirestoreStore.delete_absent {s : FS V} {ns : List String} {key : String}
    (h : FS.lookup s (joinPath ns) key = none) : FirestoreStore.delete s ns key = s := by
  rw [FirestoreStore.delete]
  induction s with
  | nil => rfl
  | cons e rest ih =>
    rw [FS.lookup] at h
    by_cases he : e.1 = (joinPath ns, key)
    · simp [he] at h
    · rw [if_neg he] at h
      simp [List.filter, he, ih h]

theorem FirestoreStore.delete_idem (s : FS V) (ns : List String) (key : String) :
    FirestoreStore.delete (FirestoreStore.delete s ns key) ns key
      = FirestoreStore.delete s ns key := by
  rw [FirestoreStore.delete, FirestoreStore.delete, List.filter_filter]
  simp

theorem FirestoreStore.get_absent {s : FS V} {ns : List String} {key : String}
    (h : FS.lookup s (joinPath ns) key = none) : FirestoreStore.get s ns key = none := by
  rw [FirestoreStore.get, h]

end FSLemmas

/-! ### Saver-level lemmas -/

theorem addr_ne_of_path {p₁ k₁ p₂ k₂ : String} (h : p₁ ≠ p₂) :
    (p₁, k₁) ≠ (p₂, k₂) := fun hc => h (congrArg Prod.fst hc)

theorem joinPath_cp_ne_blob (t n t' n' c : String) :
    joinPath ["checkpoints", t, n] ≠ joinPath ["checkpoint_blobs", t', n', c] := by
  rw [joinPath_checkpoints, joinPath_blobs]
  exact checkpoints_ne_blobs _ _

theorem joinPath_cp_ne_writes (t n t' n' cid : String) :
    joinPath ["checkpoints", t, n] ≠ joinPath ["checkpoint_writes", t', n', cid] := by
  rw [joinPath_checkpoints, joinPath_writes]
  exact checkpoints_ne_writes _ _

theorem joinPath_blob_ne_writes (t n c t' n' cid : String) :
    joinPath ["checkpoint_blobs", t, n, c] ≠ joinPath ["checkpoint_writes", t', n', cid] := by
  rw [joinPath_blobs, joinPath_writes]
  exact blobs_ne_writes _ _

namespace FirestoreSaver

/-- Blob writes only touch blob addresses of channels appearing in
`new_versions` (at their new version): any other address is untouched. -/
theorem putBlobs_lookup_other {serde : Serde} {t n : String} {nv : List (String × String)}
    {now : Nat} {P K : String} :
    ∀ (vals : List (String × Val)) (s : FS SVal),
    (∀ channel version value, (channel, value) ∈ vals → dlookup channel nv = some version →
      (joinPath ["checkpoint_blobs", t, n, channel], version) ≠ (P, K)) →
    FS.lookup (putBlobs serde t n nv now s vals) P K = FS.lookup s P K
  | [], s, _ => rfl
  | (c₀, v₀) :: rest, s, h => by
    rw [putBlobs]
    cases hnv : dlookup c₀ nv with
    | none =>
      exact putBlobs_lookup_other rest s
        (fun c ver val hm => h c ver val (List.mem_cons_of_mem _ hm))
    | some ver₀ =>
      rw [putBlobs_lookup_other rest _
        (fun c ver val hm => h c ver val (List.mem_cons_of_mem _ hm))]
      exact FirestoreStore.lookup_put_other (h c₀ ver₀ v₀ (List.mem_cons_self _ _) hnv).symm

/-- After the blob-writing loop, the blob of a channel present in the
value dict (with distinct channel names) holds its serialized value. -/
theorem putBlobs_lookup_self {serde : Serde} {t n : String} {nv : List (String × String)}
    {now : Nat} {c ver : String} {val : Val} :
    ∀ (vals : List (String × Val)) (s : FS SVal),
    dlookup c vals = some val → dlookup c nv = some ver →
    (vals.map Prod.fst).Nodup →
    (FS.lookup (putBlobs serde t n nv now s vals)
        (joinPath ["checkpoint_blobs", t, n, c]) ver).map StoreDoc.value
      = some (.blobDoc (serde.dumps_typed val).1 (serde.dumps_typed val).2)
  | [], _, hval, _, _ => by simp [dlookup] at hval
  | (c₀, v₀) :: rest, s, hval, hver, hnodup => by
    rw [putBlobs]
    rw [dlookup] at hval
    by_cases hc : c₀ = c
    · subst hc
      rw [if_pos rfl] at hval
      injection hval with hval
      subst hval
      rw [hver]
      rw [putBlobs_lookup_other rest _ ?_]
      · exact FirestoreStore.lookup_put_value
      · intro ch v vl hm _
        apply addr_ne_of_path
        intro hpath
        have hch : ch = c₀ := blobPath_inj hpath
        subst hch
        exact (List.nodup_cons.mp hnodup).1 (List.mem_map.mpr ⟨(ch, vl), hm, rfl⟩)
    · rw [if_neg hc] at hval
      cases hnv : dlookup c₀ nv with
      | none =>
        exact putBlobs_lookup_self rest s hval hver (List.nodup_cons.mp hnodup).2
      | some ver₀ =>
        exact putBlobs_lookup_self rest _ hval hver (List.nodup_cons.mp hnodup).2

end FirestoreSaver

theorem dlookup_dinsert_self {α : Type} (k : String) (v : α) (l : List (String × α)) :
    dlookup k (dinsert k v l) = some v := by
  induction l with
  | nil => simp [dinsert, dlookup]
  | cons e rest ih =>
    by_cases he : e.1 = k
    · simp [dinsert, dlookup, he]
    · simpa [dinsert, dlookup, he] using ih

/-! ### Claim theorems -/

/-- C5: `FirestoreSaver.put` writes a checkpoint header document holding the
checkpoint with `channel_values` and `pending_sends` stripped to empty, the
supplied metadata, and `parent_checkpoint_id = metadata.parents.get(checkpoint_ns)`
(which is `none` when that key is missing). -/
theorem put_writes_stripped_header (serde : Serde) (s : FS SVal) (cfg : RunnableConfig)
    (cp : Checkpoint) (md : CheckpointMetadata) (nv : List (String × String)) (now : Nat) :
    (FS.lookup (FirestoreSaver.put serde s cfg cp md nv now)
        (joinPath ["checkpoints", FirestoreSaver.getThreadId cfg,
          FirestoreSaver.getCheckpointNs cfg]) cp.id).map StoreDoc.value
      = some (.headerDoc { cp with channel_values := [], pending_sends := [] } md
          (dlookup (FirestoreSaver.getCheckpointNs cfg) md.parents)) := by
  rw [FirestoreSaver.put]
  exact FirestoreStore.lookup_put_value

/-- C6: `FirestoreStore.put` sets `created_at = updated_at = now` when
creating an item, and on a later write it keeps the existing `created_at`
while setting `updated_at` to the time of that write. -/
theorem store_put_timestamps {V : Type} (s : FS V) (ns : List String) (key : String)
    (v : V) (now : Nat) :
    (FS.lookup s (joinPath ns) key = none →
      FirestoreStore.get (FirestoreStore.put s ns key v now) ns key
        = some ⟨ns, key, v, now, now⟩)
    ∧ (∀ d : StoreDoc V, FS.lookup s (joinPath ns) key = some d →
      FirestoreStore.get (FirestoreStore.put s ns key v now) ns key
        = some ⟨ns, key, v, d.created_at, now⟩) := by
  constructor
  · intro h
    rw [FirestoreStore.get, FirestoreStore.lookup_put_self_new h]
  · intro d h
    rw [FirestoreStore.get, FirestoreStore.lookup_put_self_old h]

/-- Witness for C6 at concrete inputs: a first write at time 3, then a
second write at time 7 keeping `created_at = 3`. -/
theorem store_put_timestamps_witness :
    FirestoreStore.get (FirestoreStore.put ([] : FS Nat) ["u"] "k" 5 3) ["u"] "k"
      = some ⟨["u"], "k", 5, 3, 3⟩
    ∧ FirestoreStore.get
        (FirestoreStore.put (FirestoreStore.put ([] : FS Nat) ["u"] "k" 5 3) ["u"] "k" 6 7)
        ["u"] "k" = some ⟨["u"], "k", 6, 3, 7⟩ :=
  ⟨(store_put_timestamps [] ["u"] "k" 5 3).1 rfl,
   (store_put_timestamps (FirestoreStore.put ([] : FS Nat) ["u"] "k" 5 3) ["u"] "k" 6 7).2
     ⟨5, 3, 3⟩ rfl⟩

/-- C7: `FirestoreStore.get` at an absent address returns `none` (not an
error), `FirestoreStore.delete` there leaves the store unchanged, and
`delete` is idempotent. -/
theorem absent_get_delete_noop {V : Type} (s : FS V) (ns : List String) (key : String)
    (h : FS.lookup s (joinPath ns) key = none) :
    FirestoreStore.get s ns key = none
    ∧ FirestoreStore.delete s ns key = s
    ∧ ∀ s₀ : FS V, FirestoreStore.delete (FirestoreStore.delete s₀ ns key) ns key
        = FirestoreStore.delete s₀ ns key :=
  ⟨FirestoreStore.get_absent h, FirestoreStore.delete_absent h,
   fun s₀ => FirestoreStore.delete_idem s₀ ns key⟩

/-- Witness for C7 at a concrete store holding an unrelated document. -/
theorem absent_get_delete_noop_witness :
    FirestoreStore.get [(("a", "other"), (⟨0, 0, 0⟩ : StoreDoc Nat))] ["a"] "k" = none
    ∧ FirestoreStore.delete [(("a", "other"), (⟨0, 0, 0⟩ : StoreDoc Nat))] ["a"] "k"
        = [(("a", "other"), ⟨0, 0, 0⟩)]
    ∧ ∀ s₀ : FS Nat, FirestoreStore.delete (FirestoreStore.delete s₀ ["a"] "k") ["a"] "k"
        = FirestoreStore.delete s₀ ["a"] "k" :=
  absent_get_delete_noop [(("a", "other"), ⟨0, 0, 0⟩)] ["a"] "k" rfl

/-- C4: `FirestoreSaver.put` writes channel blobs only at the addresses
`(thread, ns, channel, new_versions[channel])` for channels in
`new_versions`; every other blob document of the same (thread, ns) —
any version of a channel outside `new_versions`, and any version other
than the new one for a channel inside it — is left exactly as it was
(same content, same timestamps). -/
theorem put_blob_frame (serde : Serde) (s : FS SVal) (cfg : RunnableConfig)
    (cp : Checkpoint) (md : CheckpointMetadata) (nv : List (String × String)) (now : Nat)
    (c v : String) (h : dlookup c nv ≠ some v) :
    FS.lookup (FirestoreSaver.put serde s cfg cp md nv now)
        (joinPath ["checkpoint_blobs", FirestoreSaver.getThreadId cfg,
          FirestoreSaver.getCheckpointNs cfg, c]) v
      = FS.lookup s (joinPath ["checkpoint_blobs", FirestoreSaver.getThreadId cfg,
          FirestoreSaver.getCheckpointNs cfg, c]) v := by
  rw [FirestoreSaver.put]
  rw [FirestoreStore.lookup_put_other
    (addr_ne_of_path (joinPath_cp_ne_blob _ _ _ _ _).symm)]
  have hblobs : ∀ s₁ : FS SVal,
      FS.lookup (FirestoreSaver.putBlobs serde (FirestoreSaver.getThreadId cfg)
          (FirestoreSaver.getCheckpointNs cfg) nv now s₁ cp.channel_values)
        (joinPath ["checkpoint_blobs", FirestoreSaver.getThreadId cfg,
          FirestoreSaver.getCheckpointNs cfg, c]) v
      = FS.lookup s₁ (joinPath ["checkpoint_blobs", FirestoreSaver.getThreadId cfg,
          FirestoreSaver.getCheckpointNs cfg, c]) v := by
    intro s₁
    apply FirestoreSaver.putBlobs_lookup_other
    intro ch ver val _ hnv heq
    have hch : ch = c := blobPath_inj (congrArg Prod.fst heq)
    have hver : ver = v := congrArg Prod.snd heq
    exact h (hch ▸ hver ▸ hnv)
  by_cases hps : cp.pending_sends.isEmpty
  · rw [if_pos hps]
    exact hblobs s
  · rw [if_neg hps]
    rw [FirestoreStore.lookup_put_other
      (addr_ne_of_path (joinPath_blob_ne_writes _ _ _ _ _ _))]
    exact hblobs s

/-- Witness for C4: a put with `new_versions = {"x": "v2"}` leaves the
pre-existing blob of channel "y" at version "v1" untouched. -/
theorem put_blob_frame_witness :
    FS.lookup
      (FirestoreSaver.put ⟨fun v => ("json", v), fun tv => tv.2⟩
        [(("checkpoint_blobs/t1//y", "v1"), ⟨.blobDoc "json" (.vstr "old"), 1, 1⟩)]
        ⟨some "t1", none⟩
        ⟨"c2", [("x", "v2")], [("x", .vstr "new")], [], []⟩ ⟨[], []⟩ [("x", "v2")] 9)
      (joinPath ["checkpoint_blobs", "t1", "", "y"]) "v1"
      = FS.lookup [(("checkpoint_blobs/t1//y", "v1"), ⟨.blobDoc "json" (.vstr "old"), 1, 1⟩)]
          (joinPath ["checkpoint_blobs", "t1", "", "y"]) "v1" :=
  put_blob_frame _ _ ⟨some "t1", none⟩ _ _ _ 9 "y" "v1" (by simp [dlookup])

/-- C10: `FirestoreStateAdapter.put` and `FirestoreStateAdapter.update`
mutate the caller-supplied dict, inserting `"_updated_at" = now` before
writing; after the call the caller's dict contains that field, and `put`
stores exactly the mutated dict. -/
theorem adapter_put_update_stamp (st : AdapterState) (key : String)
    (value : List (String × Val)) (now : Nat) :
    dlookup "_updated_at" (FirestoreStateAdapter.put st key value now).2 = some (.vnat now)
    ∧ (FirestoreStateAdapter.put st key value now).1 key
        = some (FirestoreStateAdapter.put st key value now).2
    ∧ dlookup "_updated_at" (FirestoreStateAdapter.update st key value now).2
        = some (.vnat now) := by
  refine ⟨dlookup_dinsert_self _ _ _, by simp [FirestoreStateAdapter.put], ?_⟩
  rw [FirestoreStateAdapter.update]
  cases st key <;> exact dlookup_dinsert_self _ _ _

namespace FirestoreSaver

/-- A failed blob-writing loop leaves every non-blob address untouched in
the state its exception carries. -/
theorem putBlobsE_error_lookup {serde : Serde} {t n : String} {nv : List (String × String)}
    {now : Nat} {ok : Nat → Bool} {P K : String} :
    ∀ (vals : List (String × Val)) (s : FS SVal) (i : Nat) (sf : FS SVal),
    (∀ channel version value, (channel, value) ∈ vals → dlookup channel nv = some version →
      (joinPath ["checkpoint_blobs", t, n, channel], version) ≠ (P, K)) →
    putBlobsE serde t n nv now ok s i vals = .error sf →
    FS.lookup sf P K = FS.lookup s P K
  | [], s, i, sf, _, heq => by simp [putBlobsE] at heq
  | (c₀, v₀) :: rest, s, i, sf, h, heq => by
    rw [putBlobsE] at heq
    cases hnv : dlookup c₀ nv with
    | none =>
      rw [hnv] at heq
      exact putBlobsE_error_lookup rest s i sf
        (fun c ver val hm => h c ver val (List.mem_cons_of_mem _ hm)) heq
    | some ver₀ =>
      rw [hnv] at heq
      have heq2 : (if ok i = true then
          putBlobsE serde t n nv now ok
            (FirestoreStore.put s ["checkpoint_blobs", t, n, c₀] ver₀
              (.blobDoc (serde.dumps_typed v₀).1 (serde.dumps_typed v₀).2) now)
            (i + 1) rest
        else Except.error s) = Except.error sf := heq
      by_cases hok : ok i = true
      · rw [if_pos hok] at heq2
        rw [putBlobsE_error_lookup rest _ (i + 1) sf
          (fun c ver val hm => h c ver val (List.mem_cons_of_mem _ hm)) heq2]
        exact FirestoreStore.lookup_put_other
          (h c₀ ver₀ v₀ (List.mem_cons_self _ _) hnv).symm
      · rw [if_neg hok] at heq2
        injection heq2 with heq2
        rw [← heq2]

end FirestoreSaver

/-- C8: if any channel-blob write of `FirestoreSaver.put` fails, the whole
`put` call fails with that exception and the checkpoint header document is
not written (the header address is exactly as before the call). -/
theorem put_fails_without_header (serde : Serde) (s : FS SVal) (cfg : RunnableConfig)
    (cp : Checkpoint) (md : CheckpointMetadata) (nv : List (String × String)) (now : Nat)
    (ok : Nat → Bool) (sf : FS SVal)
    (hfail : FirestoreSaver.putBlobsE serde (FirestoreSaver.getThreadId cfg)
        (FirestoreSaver.getCheckpointNs cfg) nv now ok s 0 cp.channel_values = .error sf) :
    FirestoreSaver.putE serde s cfg cp md nv now ok = .error sf
    ∧ FS.lookup sf (joinPath ["checkpoints", FirestoreSaver.getThreadId cfg,
          FirestoreSaver.getCheckpointNs cfg]) cp.id
      = FS.lookup s (joinPath ["checkpoints", FirestoreSaver.getThreadId cfg,
          FirestoreSaver.getCheckpointNs cfg]) cp.id := by
  constructor
  · rw [FirestoreSaver.putE, hfail]
  · exact FirestoreSaver.putBlobsE_error_lookup cp.channel_values s 0 sf
      (fun c ver val _ _ => addr_ne_of_path (joinPath_cp_ne_blob _ _ _ _ _).symm) hfail

/-- Witness for C8: with a backend whose first write fails, `put` of a
checkpoint with one dirty channel errors out and writes no header. -/
theorem put_fails_without_header_witness :
    FirestoreSaver.putE ⟨fun v => ("json", v), fun tv => tv.2⟩ [] ⟨some "t1", none⟩
        ⟨"c1", [("x", "v1")], [("x", .vstr "a")], [], []⟩ ⟨[], []⟩ [("x", "v1")] 0
        (fun _ => false)
      = .error []
    ∧ FS.lookup ([] : FS SVal) (joinPath ["checkpoints", "t1", ""]) "c1"
      = FS.lookup ([] : FS SVal) (joinPath ["checkpoints", "t1", ""]) "c1" :=
  put_fails_without_header _ [] ⟨some "t1", none⟩
    ⟨"c1", [("x", "v1")], [("x", .vstr "a")], [], []⟩ ⟨[], []⟩ [("x", "v1")] 0
    (fun _ => false) [] rfl

theorem dlookup_of_mem_nodup {α : Type} {l : List (String × α)} {c : String} {v : α}
    (hm : (c, v) ∈ l) (hn : (l.map Prod.fst).Nodup) : dlookup c l = some v := by
  induction l with
  | nil => cases hm
  | cons e rest ih =>
    obtain ⟨k₀, v₀⟩ := e
    rw [List.map_cons] at hn
    cases List.mem_cons.mp hm with
    | inl heq =>
      cases heq
      simp [dlookup]
    | inr hmem =>
      have hk : k₀ ≠ c := by
        intro hcc
        subst hcc
        exact (List.nodup_cons.mp hn).1 (List.mem_map.mpr ⟨(k₀, v), hmem, rfl⟩)
      simp [dlookup, hk, ih hmem (List.nodup_cons.mp hn).2]

theorem map_loads_dumps {serde : Serde} {S : List Val}
    (h : ∀ m ∈ S, serde.loads_typed (serde.dumps_typed m) = m) :
    (S.map serde.dumps_typed).map serde.loads_typed = S := by
  induction S with
  | nil => rfl
  | cons m r ih =>
    simp only [List.map_cons, List.cons.injEq]
    exact ⟨h m (List.mem_cons_self _ _), ih (fun x hx => h x (List.mem_cons_of_mem _ hx))⟩

theorem FirestoreStore.get_of_lookup {V : Type} {s : FS V} {ns : List String} {key : String}
    {d : StoreDoc V} (h : FS.lookup s (joinPath ns) key = some d) :
    FirestoreStore.get s ns key = some ⟨ns, key, d.value, d.created_at, d.updated_at⟩ := by
  rw [FirestoreStore.get, h]

namespace FirestoreSaver

/-- One step of the channel-value reconstruction loop when the referenced
blob exists and its type tag is not `"empty"`. -/
theorem getChannelValues_cons_found {serde : Serde} {t n : String} {s₂ : FS SVal}
    {c ver : String} {rest : List (String × String)} {d : StoreDoc SVal}
    {ty : String} {pl : Val}
    (hd : FS.lookup s₂ (joinPath ["checkpoint_blobs", t, n, c]) ver = some d)
    (hdv : d.value = .blobDoc ty pl) (hne : ty ≠ "empty") :
    getChannelValues serde s₂ t n ((c, ver) :: rest)
      = (c, serde.loads_typed (ty, pl)) :: getChannelValues serde s₂ t n rest := by
  simp [getChannelValues, FirestoreStore.get_of_lookup hd, hdv, SVal.typeTag,
    SVal.blobPayload, hne]

/-- The channel-value reconstruction loop recovers exactly the channel
values whose blobs are in place. -/
theorem getChannelValues_eq {serde : Serde} {t n : String} (s₂ : FS SVal) :
    ∀ (Lv : List (String × String)) (Lvals : List (String × Val)),
    Lv.map Prod.fst = Lvals.map Prod.fst →
    (Lvals.map Prod.fst).Nodup →
    (∀ c ver val, (c, ver) ∈ Lv → dlookup c Lvals = some val →
      (FS.lookup s₂ (joinPath ["checkpoint_blobs", t, n, c]) ver).map StoreDoc.value
        = some (.blobDoc (serde.dumps_typed val).1 (serde.dumps_typed val).2)
      ∧ serde.loads_typed (serde.dumps_typed val) = val
      ∧ (serde.dumps_typed val).1 ≠ "empty") →
    getChannelValues serde s₂ t n Lv = Lvals
  | [], [], _, _, _ => rfl
  | [], e :: r, hkeys, _, _ => by simp at hkeys
  | (c, ver) :: Lv', Lvals, hkeys, hnodup, H => by
    cases Lvals with
    | nil => simp at hkeys
    | cons hv Lvals' =>
      obtain ⟨c₀, val₀⟩ := hv
      simp only [List.map_cons] at hkeys
      injection hkeys with hc htl
      subst hc
      have hdl : dlookup c ((c, val₀) :: Lvals') = some val₀ := by simp [dlookup]
      obtain ⟨hblob, hrt, hemp⟩ := H c ver val₀ (List.mem_cons_self _ _) hdl
      obtain ⟨d, hd, hdv⟩ := Option.map_eq_some'.mp hblob
      rw [getChannelValues_cons_found hd hdv hemp]
      have htail : getChannelValues serde s₂ t n Lv' = Lvals' := by
        apply getChannelValues_eq s₂ Lv' Lvals' htl (List.nodup_cons.mp hnodup).2
        intro c' ver' val' hm hdl'
        apply H c' ver' val' (List.mem_cons_of_mem _ hm)
        have hc' : c' ≠ c := by
          intro hcc
          subst hcc
          have : c' ∈ Lvals'.map Prod.fst := by
            rw [← htl]
            exact List.mem_map.mpr ⟨(c', ver'), hm, rfl⟩
          exact (List.nodup_cons.mp hnodup).1 this
        have hcc : c ≠ c' := fun hx => hc' hx.symm
        simpa [dlookup, hcc] using hdl'
      rw [htail, Prod.mk.eta, hrt]

end FirestoreSaver

namespace FirestoreSaver

/-- Unfolding of `FirestoreSaver.get` with an explicit checkpoint id whose
header document is present. -/
theorem get_unfold {serde : Serde} {s : FS SVal} {cfg : RunnableConfig} {cid : String}
    {d : StoreDoc SVal} {cp₀ : Checkpoint} {md : CheckpointMetadata} {par : Option String}
    (hd : FS.lookup s (joinPath ["checkpoints", getThreadId cfg, getCheckpointNs cfg]) cid
      = some d)
    (hdv : d.value = .headerDoc cp₀ md par) :
    get serde s cfg (some cid)
      = some { cp₀ with
          channel_values :=
            getChannelValues serde s (getThreadId cfg) (getCheckpointNs cfg)
              cp₀.channel_versions,
          pending_sends :=
            match FirestoreStore.get s ["checkpoint_writes", getThreadId cfg,
                getCheckpointNs cfg, cid] "pending_sends" with
            | some sendsItem => sendsItem.value.sendsList.map serde.loads_typed
            | none => [] } := by
  rw [get]
  simp only [FirestoreStore.get_of_lookup hd, hdv, SVal.getCheckpoint]

end FirestoreSaver

/-- C1: round-trip.  `put` of a checkpoint whose `channel_versions` lists
exactly the value channels (distinct names) at the versions recorded in
`new_versions`, with a serializer that round-trips the stored values and
messages without producing the reserved `"empty"` tag, and with no stale
pending-sends record under this fresh checkpoint id, followed by `get` for
the same thread, namespace and checkpoint id, returns the checkpoint with
`channel_values` equal to the original values and `pending_sends` equal to
the original sends, order preserved. -/
theorem put_roundtrip_get (serde : Serde) (s : FS SVal) (cfg : RunnableConfig)
    (cp : Checkpoint) (md : CheckpointMetadata) (nv : List (String × String)) (now : Nat)
    (hkeys : cp.channel_versions.map Prod.fst = cp.channel_values.map Prod.fst)
    (hnodup : (cp.channel_values.map Prod.fst).Nodup)
    (hver : ∀ c ver, dlookup c cp.channel_versions = some ver → dlookup c nv = some ver)
    (hround : ∀ c val, dlookup c cp.channel_values = some val →
      serde.loads_typed (serde.dumps_typed val) = val ∧ (serde.dumps_typed val).1 ≠ "empty")
    (hsends : ∀ m ∈ cp.pending_sends, serde.loads_typed (serde.dumps_typed m) = m)
    (hfresh : FS.lookup s (joinPath ["checkpoint_writes", FirestoreSaver.getThreadId cfg,
        FirestoreSaver.getCheckpointNs cfg, cp.id]) "pending_sends" = none) :
    FirestoreSaver.get serde (FirestoreSaver.put serde s cfg cp md nv now) cfg (some cp.id)
      = some cp := by
  have hheader : (FS.lookup (FirestoreSaver.put serde s cfg cp md nv now)
      (joinPath ["checkpoints", FirestoreSaver.getThreadId cfg,
        FirestoreSaver.getCheckpointNs cfg]) cp.id).map StoreDoc.value
      = some (.headerDoc { cp with channel_values := [], pending_sends := [] } md
          (dlookup (FirestoreSaver.getCheckpointNs cfg) md.parents)) := by
    rw [FirestoreSaver.put]
    exact FirestoreStore.lookup_put_value
  obtain ⟨d, hd, hdv⟩ := Option.map_eq_some'.mp hheader
  rw [FirestoreSaver.get_unfold hd hdv]
  have hs2 : ∀ c ver, FS.lookup (FirestoreSaver.put serde s cfg cp md nv now)
      (joinPath ["checkpoint_blobs", FirestoreSaver.getThreadId cfg,
        FirestoreSaver.getCheckpointNs cfg, c]) ver
      = FS.lookup (FirestoreSaver.putBlobs serde (FirestoreSaver.getThreadId cfg)
          (FirestoreSaver.getCheckpointNs cfg) nv now s cp.channel_values)
        (joinPath ["checkpoint_blobs", FirestoreSaver.getThreadId cfg,
          FirestoreSaver.getCheckpointNs cfg, c]) ver := by
    intro c ver
    rw [FirestoreSaver.put]
    rw [FirestoreStore.lookup_put_other
      (addr_ne_of_path (joinPath_cp_ne_blob _ _ _ _ _).symm)]
    by_cases hps : cp.pending_sends.isEmpty
    · rw [if_pos hps]
    · rw [if_neg hps, FirestoreStore.lookup_put_other
        (addr_ne_of_path (joinPath_blob_ne_writes _ _ _ _ _ _))]
  have hcv : FirestoreSaver.getChannelValues serde
      (FirestoreSaver.put serde s cfg cp md nv now) (FirestoreSaver.getThreadId cfg)
      (FirestoreSaver.getCheckpointNs cfg) cp.channel_versions = cp.channel_values := by
    apply FirestoreSaver.getChannelValues_eq _ _ _ hkeys hnodup
    intro c ver val hm hdl
    have hvnodup : (cp.channel_versions.map Prod.fst).Nodup := by rw [hkeys]; exact hnodup
    have hnvc : dlookup c nv = some ver := hver c ver (dlookup_of_mem_nodup hm hvnodup)
    obtain ⟨hrt, hemp⟩ := hround c val hdl
    refine ⟨?_, hrt, hemp⟩
    rw [hs2 c ver]
    exact FirestoreSaver.putBlobs_lookup_self cp.channel_values s hdl hnvc hnodup
  have hps2 : (match FirestoreStore.get (FirestoreSaver.put serde s cfg cp md nv now)
      ["checkpoint_writes", FirestoreSaver.getThreadId cfg,
        FirestoreSaver.getCheckpointNs cfg, cp.id] "pending_sends" with
      | some sendsItem => sendsItem.value.sendsList.map serde.loads_typed
      | none => []) = cp.pending_sends := by
    by_cases hpe : cp.pending_sends.isEmpty
    · have hnil : cp.pending_sends = [] := by simpa using hpe
      have hlook : FS.lookup (FirestoreSaver.put serde s cfg cp md nv now)
          (joinPath ["checkpoint_writes", FirestoreSaver.getThreadId cfg,
            FirestoreSaver.getCheckpointNs cfg, cp.id]) "pending_sends" = none := by
        rw [FirestoreSaver.put]
        rw [FirestoreStore.lookup_put_other
          (addr_ne_of_path (joinPath_cp_ne_writes _ _ _ _ _).symm)]
        rw [if_pos hpe]
        rw [FirestoreSaver.putBlobs_lookup_other cp.channel_values s
          (fun ch ver val _ _ => addr_ne_of_path (joinPath_blob_ne_writes _ _ _ _ _ _))]
        exact hfresh
      rw [FirestoreStore.get_absent hlook, hnil]
    · have hlookv : (FS.lookup (FirestoreSaver.put serde s cfg cp md nv now)
          (joinPath ["checkpoint_writes", FirestoreSaver.getThreadId cfg,
            FirestoreSaver.getCheckpointNs cfg, cp.id]) "pending_sends").map StoreDoc.value
          = some (.sendsDoc (cp.pending_sends.map serde.dumps_typed)) := by
        rw [FirestoreSaver.put]
        rw [FirestoreStore.lookup_put_other
          (addr_ne_of_path (joinPath_cp_ne_writes _ _ _ _ _).symm)]
        rw [if_neg hpe]
        exact FirestoreStore.lookup_put_value
      obtain ⟨dd, hdd, hddv⟩ := Option.map_eq_some'.mp hlookv
      rw [FirestoreStore.get_of_lookup hdd]
      simp only [hddv, SVal.sendsList]
      exact map_loads_dumps hsends
  have hassemble : ∀ (X : List (String × Val)) (Y : List Val),
      X = cp.channel_values → Y = cp.pending_sends →
      (⟨cp.id, cp.channel_versions, X, Y, cp.extra⟩ : Checkpoint) = cp := by
    intro X Y hX hY
    cases cp
    subst hX
    subst hY
    rfl
  exact congrArg some (hassemble _ _ hcv hps2)

/-- Witness for C1: a concrete checkpoint with one channel value and one
pending send round-trips through `put` and `get` on an empty store. -/
theorem put_roundtrip_get_witness :
    FirestoreSaver.get ⟨fun v => ("json", v), fun tv => tv.2⟩
        (FirestoreSaver.put ⟨fun v => ("json", v), fun tv => tv.2⟩ [] ⟨some "t1", none⟩
          ⟨"c1", [("x", "v1")], [("x", .vstr "hello")], [.vstr "m1"], []⟩ ⟨[], []⟩
          [("x", "v1")] 0)
        ⟨some "t1", none⟩ (some "c1")
      = some ⟨"c1", [("x", "v1")], [("x", .vstr "hello")], [.vstr "m1"], []⟩ :=
  put_roundtrip_get _ _ _ _ _ _ _ rfl (by decide) (fun _ _ h => h)
    (fun _ _ _ => ⟨rfl, by show ("json" : String) ≠ "empty"; decide⟩) (fun _ _ => rfl) rfl

namespace FirestoreSaver

/-- If every referenced version of a channel has no blob in storage, the
reconstruction loop binds nothing for that channel. -/
theorem getChannelValues_missing {serde : Serde} {s₂ : FS SVal} {t n c : String} :
    ∀ Lv : List (String × String),
    (∀ ver, (c, ver) ∈ Lv →
      FS.lookup s₂ (joinPath ["checkpoint_blobs", t, n, c]) ver = none) →
    dlookup c (getChannelValues serde s₂ t n Lv) = none
  | [], _ => rfl
  | (c₀, ver₀) :: rest, h => by
    have htail := @getChannelValues_missing serde s₂ t n c rest
      (fun ver hm => h ver (List.mem_cons_of_mem _ hm))
    by_cases hc : c₀ = c
    · subst hc
      have hl := h ver₀ (List.mem_cons_self _ _)
      rw [getChannelValues, FirestoreStore.get_absent hl]
      exact htail
    · cases hget : FirestoreStore.get s₂ ["checkpoint_blobs", t, n, c₀] ver₀ with
      | none =>
        rw [getChannelValues, hget]
        exact htail
      | some item =>
        rw [getChannelValues, hget]
        show dlookup c (if item.value.typeTag ≠ some "empty" then
            (c₀, serde.loads_typed (item.value.typeTag.getD "", item.value.blobPayload)) ::
              getChannelValues serde s₂ t n rest
          else getChannelValues serde s₂ t n rest) = none
        by_cases hty : item.value.typeTag ≠ some "empty"
        · rw [if_pos hty, dlookup, if_neg hc]
          exact htail
        · rw [if_neg hty]
          exact htail

end FirestoreSaver

/-- C3 (amended): when a stored checkpoint header references a channel
version with no corresponding blob, `FirestoreSaver.get` does not raise: it
returns the checkpoint with that channel silently absent from
`channel_values`.  (No `IntegrityViolation` error exists in the code.) -/
theorem get_missing_blob_silent (serde : Serde) (s : FS SVal) (cfg : RunnableConfig)
    (cid : String) (d : StoreDoc SVal) (cp₀ : Checkpoint) (md : CheckpointMetadata)
    (par : Option String) (c : String)
    (hd : FS.lookup s (joinPath ["checkpoints", FirestoreSaver.getThreadId cfg,
        FirestoreSaver.getCheckpointNs cfg]) cid = some d)
    (hdv : d.value = .headerDoc cp₀ md par)
    (hmiss : ∀ ver, (c, ver) ∈ cp₀.channel_versions →
      FS.lookup s (joinPath ["checkpoint_blobs", FirestoreSaver.getThreadId cfg,
        FirestoreSaver.getCheckpointNs cfg, c]) ver = none) :
    ∃ cpr : Checkpoint, FirestoreSaver.get serde s cfg (some cid) = some cpr
      ∧ dlookup c cpr.channel_values = none := by
  refine ⟨_, FirestoreSaver.get_unfold hd hdv, ?_⟩
  exact FirestoreSaver.getChannelValues_missing cp₀.channel_versions hmiss

/-- Counterexample to C3 as stated: a header referencing blob ("x", "v1")
with no such blob in storage makes `get` return a checkpoint whose
`channel_values` is empty — no error of any kind is raised. -/
theorem get_missing_blob_counterexample :
    FirestoreSaver.get ⟨fun v => ("json", v), fun tv => tv.2⟩
        [(("checkpoints/t1/", "c1"),
          ⟨.headerDoc ⟨"c1", [("x", "v1")], [], [], []⟩ ⟨[], []⟩ none, 0, 0⟩)]
        ⟨some "t1", none⟩ (some "c1")
      = some ⟨"c1", [("x", "v1")], [], [], []⟩ := rfl

/-- Witness for the amended C3 at the counterexample's store. -/
theorem get_missing_blob_silent_witness :
    ∃ cpr : Checkpoint,
      FirestoreSaver.get ⟨fun v => ("json", v), fun tv => tv.2⟩
          [(("checkpoints/t1/", "c1"),
            ⟨.headerDoc ⟨"c1", [("x", "v1")], [], [], []⟩ ⟨[], []⟩ none, 0, 0⟩)]
          ⟨some "t1", none⟩ (some "c1")
        = some cpr
      ∧ dlookup "x" cpr.channel_values = none :=
  get_missing_blob_silent _ _ ⟨some "t1", none⟩ "c1" _ _ _ _ "x" rfl rfl
    (fun ver _ => by
      rw [FS.lookup, if_neg]
      · rfl
      · intro h
        have h1 : ("checkpoints/t1/" : String) = joinPath ["checkpoint_blobs",
            FirestoreSaver.getThreadId ⟨some "t1", none⟩,
            FirestoreSaver.getCheckpointNs ⟨some "t1", none⟩, "x"] := congrArg Prod.fst h
        exact absurd h1 (by decide))

theorem append_slash_inj : ∀ {xs as ys bs : List Char}, '/' ∉ xs → '/' ∉ as →
    xs ++ '/' :: ys = as ++ '/' :: bs → xs = as ∧ ys = bs := by
  intro xs
  induction xs with
  | nil =>
    intro as ys bs _ ha h
    cases as with
    | nil => simpa using h
    | cons a as' =>
      rw [List.nil_append, List.cons_append] at h
      injection h with h1 _
      exact absurd (h1 ▸ List.mem_cons_self a as') ha
  | cons x xs' ih =>
    intro as ys bs hx ha h
    cases as with
    | nil =>
      rw [List.nil_append, List.cons_append] at h
      injection h with h1 _
      exact absurd (h1 ▸ List.mem_cons_self x xs') hx
    | cons a as' =>
      rw [List.cons_append, List.cons_append] at h
      injection h with h1 h2
      obtain ⟨hh, ht⟩ := ih (fun hm => hx (List.mem_cons_of_mem _ hm))
        (fun hm => ha (List.mem_cons_of_mem _ hm)) h2
      exact ⟨by rw [h1, hh], ht⟩

theorem joinPath_data_cons2 (x y : String) (r : List String) :
    (joinPath (x :: y :: r)).data = x.data ++ '/' :: (joinPath (y :: r)).data := by
  rw [joinPath]
  · simp [String.data_append]
  · simp

theorem joinPath_cons_starts (b : String) (B' : List String) :
    ∃ rest, (joinPath (b :: B')).data = b.data ++ rest := by
  cases B' with
  | nil => exact ⟨[], by simp [joinPath]⟩
  | cons b' B'' => exact ⟨'/' :: (joinPath (b' :: B'')).data, joinPath_data_cons2 b b' B''⟩

/-- `"/".join` is injective on lists of valid segments. -/
theorem joinPath_inj : ∀ (A B : List String), validSegs A → validSegs B →
    joinPath A = joinPath B → A = B
  | [], [], _, _, _ => rfl
  | [], b :: B', _, hB, h => by
    exfalso
    obtain ⟨rest, hr⟩ := joinPath_cons_starts b B'
    have hdata : ([] : List Char) = b.data ++ rest := by
      have := congrArg String.data h
      simpa [joinPath, hr] using this
    obtain ⟨hb, -⟩ := (List.append_eq_nil).mp hdata.symm
    exact (hB b (List.mem_cons_self _ _)).1 (strData_inj (hb.trans rfl))
  | a :: A', [], hA, _, h => by
    exfalso
    obtain ⟨rest, hr⟩ := joinPath_cons_starts a A'
    have hdata : ([] : List Char) = a.data ++ rest := by
      have := congrArg String.data h
      simpa [joinPath, hr] using this.symm
    obtain ⟨hb, -⟩ := (List.append_eq_nil).mp hdata.symm
    exact (hA a (List.mem_cons_self _ _)).1 (strData_inj (hb.trans rfl))
  | [a], [b], _, _, h => by rw [show joinPath [a] = a from rfl, show joinPath [b] = b from rfl] at h; rw [h]
  | [a], b :: b' :: B'', hA, _, h => by
    exfalso
    have hdata := congrArg String.data h
    rw [show joinPath [a] = a from rfl, joinPath_data_cons2] at hdata
    exact (hA a (List.mem_cons_self _ _)).2
      (hdata ▸ List.mem_append_right _ (List.mem_cons_self _ _))
  | a :: a' :: A'', [b], _, hB, h => by
    exfalso
    have hdata := congrArg String.data h
    rw [show joinPath [b] = b from rfl, joinPath_data_cons2] at hdata
    exact (hB b (List.mem_cons_self _ _)).2
      (hdata ▸ List.mem_append_right _ (List.mem_cons_self _ _))
  | a :: a' :: A'', b :: b' :: B'', hA, hB, h => by
    have hdata := congrArg String.data h
    rw [joinPath_data_cons2, joinPath_data_cons2] at hdata
    obtain ⟨hh, ht⟩ := append_slash_inj (hA a (List.mem_cons_self _ _)).2
      (hB b (List.mem_cons_self _ _)).2 hdata
    have hab : a = b := strData_inj hh
    have htails : a' :: A'' = b' :: B'' :=
      joinPath_inj (a' :: A'') (b' :: B'')
        (fun x hx => hA x (List.mem_cons_of_mem _ hx))
        (fun x hx => hB x (List.mem_cons_of_mem _ hx)) (strData_inj ht)
    rw [hab, htails]

theorem filter_path_replace {V : Type} {pc k : String} {d : StoreDoc V} {q : String}
    (hne : pc ≠ q) : ∀ s : FS V,
    (FS.replaceEntry s pc k d).filter (fun e => decide (e.1.1 = q))
      = s.filter (fun e => decide (e.1.1 = q))
  | [] => rfl
  | e :: rest => by
    have hrec : List.filter (fun e => decide (e.1.1 = q))
        (List.map (fun e => if e.1 = (pc, k) then ((pc, k), d) else e) rest)
        = List.filter (fun e => decide (e.1.1 = q)) rest := filter_path_replace hne rest
    by_cases he : e.1 = (pc, k)
    · have he1 : e.1.1 = pc := by rw [he]
      simp only [FS.replaceEntry, List.map_cons, if_pos he, List.filter_cons]
      rw [hrec, if_neg (by simp [hne]), if_neg (by simp [he1, hne])]
    · simp only [FS.replaceEntry, List.map_cons, if_neg he, List.filter_cons]
      rw [hrec]

theorem search_congr {V : Type} (s₁ s₂ : FS V) (B : List String) (flt : Option (V → Bool))
    (l o : Option Nat)
    (h : s₁.filter (fun e => decide (e.1.1 = joinPath B))
       = s₂.filter (fun e => decide (e.1.1 = joinPath B))) :
    FirestoreStore.search s₁ B flt l o = FirestoreStore.search s₂ B flt l o := by
  unfold FirestoreStore.search
  rw [h]

theorem search_put_other {V : Type} (s : FS V) (C B : List String) (k : String) (v : V)
    (now : Nat) (flt : Option (V → Bool)) (l o : Option Nat)
    (hne : joinPath C ≠ joinPath B) :
    FirestoreStore.search (FirestoreStore.put s C k v now) B flt l o
      = FirestoreStore.search s B flt l o := by
  apply search_congr
  rw [FirestoreStore.put]
  cases hl : FS.lookup s (joinPath C) k with
  | some d => exact filter_path_replace hne s
  | none =>
    rw [List.filter_append]
    simp [hne]

/-- C9 (amended): for namespaces built from valid Firestore segments
(non-empty, no `/`), writes under a namespace C extending prefix A are
invisible to `search` with a prefix B that A does not lead to: the search
results are exactly what they were before the write.  The restriction to
valid segments is forced by the `"/".join` path encoding, under which
distinct tuples such as `("a", "b")` and `("a/b",)` collide. -/
theorem search_namespace_isolation {V : Type} (s : FS V) (A B C : List String)
    (k : String) (v : V) (now : Nat) (flt : Option (V → Bool)) (l o : Option Nat)
    (hAC : A <+: C) (hAB : ¬ A <+: B) (hC : validSegs C) (hB : validSegs B) :
    FirestoreStore.search (FirestoreStore.put s C k v now) B flt l o
      = FirestoreStore.search s B flt l o := by
  apply search_put_other
  intro hj
  exact hAB ((joinPath_inj C B hC hB hj) ▸ hAC)

/-- Counterexample to C9 as stated: with A = `("a", "b")` and B = `("a/b",)`
we have A ≠ B and A is not a tuple-prefix of B, yet an item written under
namespace A is returned by `search` with prefix B, because both join to the
collection path `"a/b"`. -/
theorem search_collision_counterexample :
    (["a", "b"] : List String) ≠ ["a/b"]
    ∧ ¬ (["a", "b"] <+: ["a/b"])
    ∧ FirestoreStore.search
        (FirestoreStore.put ([] : FS Val) ["a", "b"] "k" (.vstr "secret") 0)
        ["a/b"] none none none
      = [⟨["a/b"], "k", .vstr "secret", 0, 0⟩] :=
  ⟨by decide, by decide, rfl⟩

/-- Witness for the amended C9 at concrete valid namespaces. -/
theorem search_namespace_isolation_witness :
    FirestoreStore.search
        (FirestoreStore.put ([] : FS Val) ["a"] "k" (.vstr "w") 0) ["b"] none none none
      = FirestoreStore.search ([] : FS Val) ["b"] none none none :=
  search_namespace_isolation [] ["a"] ["b"] ["a"] "k" (.vstr "w") 0 none none none
    (by decide) (by decide) (by decide) (by decide)

/-- C2 fails on the code (the source's own docstring for `get` promises the
latest checkpoint): `search` issues the backend query with no `order_by`,
so the backend's default ascending document-id order applies, and
`FirestoreSaver.list` returns checkpoints oldest-first.  With checkpoints
"1" (written at time 0) and "2" (written at time 1), `list` yields
["1", "2"], `list` with `limit=1` yields the oldest checkpoint "1", and
`get` with the checkpoint id omitted resolves to "1" — not the most
recently written "2". -/
theorem list_returns_oldest_first :
    FirestoreSaver.list twoCheckpointState (some ⟨some "t1", none⟩) (some 1)
      = [("1", ⟨[], []⟩)]
    ∧ FirestoreSaver.list twoCheckpointState (some ⟨some "t1", none⟩) none
      = [("1", ⟨[], []⟩), ("2", ⟨[], []⟩)]
    ∧ FirestoreSaver.get jsonSerde twoCheckpointState ⟨some "t1", none⟩ none
      = some ⟨"1", [], [], [], []⟩ :=
  ⟨rfl, rfl, rfl⟩
